import Mathlib

/-! # Macro handler and jet view engine of radiantrfid/iris

Shallow embedding of `macro/handler/handler.go`: `CanMakeHandler`,
`MakeFilter` and `MakeHandler`, together with the parts of the `macro`,
`memstore` and `context` packages that these three functions call; and of
`view/jet.go`: `Jet`, `Delims`, `AddVar`, `AddFunc`, `Load`, `Binary` and the
embedded loader with `embeddedFile.Read`.

The request context is a value that is passed through explicitly.  Every call
the handler code makes on one of its collaborators (`Store.GetEntryAt`,
`TemplateParam.Eval`, `ctx.StatusCode`, `ctx.StopExecution`, `ctx.Next`) is
appended to the `calls` field of the context, so that statements such as
"no later evaluator is invoked" are statements about that list.
-/

namespace Iris

/-! ## The parameter store (`core/memstore`) -/

/-- Modelled from the spec: an entry of the per-request parameter store
(`memstore.Entry`, whose declaration is missing): the key of the capture and
its raw captured value, kept as the text that `Entry.String()` returns. -/
structure Entry where
  Key : String
  ValueRaw : String
deriving DecidableEq, Repr

/-- Modelled from the spec: `Entry.String()`, the raw captured string of an
entry. -/
def Entry.String (e : Entry) : String := e.ValueRaw

/-- Modelled from the spec: `memstore.Store`, the insertion-ordered,
index-addressable container of entries of one request. -/
abbrev Store := List Entry

/-- Modelled from the spec: `Store.GetEntryAt(index)`, the entry at a 0-based
position and whether there is one (`getEntry(index) -> entry, found`). -/
def Store.GetEntryAt (r : Store) (index : Nat) : Option Entry :=
  if h : index < r.length then some (r.get ⟨index, h⟩) else none

/-! ## Templates (`macro`) -/

/-- Modelled from the spec: the parameter descriptor `macro.TemplateParam`,
whose declaration is missing.  The fields read by the handler package are
kept; the evaluator `Eval` of the parameter is a field, so that every theorem
holds for every evaluator: it receives the raw string and the store, and
returns whether the value is valid and the store it leaves (it receives
`&ctx.Params().Store` and may write to it).  `Index` is the 0-based position
that the parser assigned. -/
structure TemplateParam where
  Name : String
  Index : Nat
  ErrCode : Int
  canEval : Bool
  Eval : String → Store → Bool × Store

/-- Modelled from the spec: `TemplateParam.CanEval()`, the derived property
`needs evaluation` of a descriptor, fixed when the template is parsed. -/
def TemplateParam.CanEval (p : TemplateParam) : Bool := p.canEval

/-- Modelled from the spec: the parsed route pattern `macro.Template`: its
source and its ordered parameter descriptors. -/
structure Template where
  Src : String
  Params : List TemplateParam

/-! ## The request context (`context`) -/

/-- Calls that the handler package makes on its collaborators. -/
inductive Call where
  | GetEntryAt (index : Nat)
  | Eval (index : Nat) (paramValue : String)
  | StatusCode (code : Int)
  | StopExecution
  | Next
deriving DecidableEq, Repr

/-- Modelled from the spec: the part of `context.Context` that the handler
package touches: the parameter store of the request (`ctx.Params().Store`),
the status code of the response, and the record of the calls made so far. -/
structure Context where
  store : Store
  statusCode : Int
  calls : List Call
deriving DecidableEq, Repr

/-- The call `ctx.Params().Store.GetEntryAt(index)`. -/
def Context.GetEntryAt (ctx : Context) (index : Nat) : Option Entry × Context :=
  (ctx.store.GetEntryAt index, { ctx with calls := ctx.calls ++ [Call.GetEntryAt index] })

/-- The call `p.Eval(paramValue, &ctx.Params().Store)`: the evaluator runs on
the store of the request and the store it leaves replaces it. -/
def Context.Eval (ctx : Context) (p : TemplateParam) (paramValue : String) : Bool × Context :=
  let r := p.Eval paramValue ctx.store
  (r.1, { ctx with store := r.2, calls := ctx.calls ++ [Call.Eval p.Index paramValue] })

/-- Modelled from the spec: `ctx.StatusCode(code)` sets the response status. -/
def Context.StatusCode (ctx : Context) (code : Int) : Context :=
  { ctx with statusCode := code, calls := ctx.calls ++ [Call.StatusCode code] }

/-- Modelled from the spec: `ctx.StopExecution()` stops the handler chain; the
call is recorded. -/
def Context.StopExecution (ctx : Context) : Context :=
  { ctx with calls := ctx.calls ++ [Call.StopExecution] }

/-- Modelled from the spec: `ctx.Next()` passes control to the next stage of
the chain; the call is recorded. -/
def Context.Next (ctx : Context) : Context :=
  { ctx with calls := ctx.calls ++ [Call.Next] }

/-- Go `context.Filter`: `func(Context) bool`, with the context it leaves. -/
abbrev Filter := Context → Bool × Context

/-- Go `context.Handler`: `func(Context)`, with the context it leaves; `none`
is the run-time panic of calling a nil function value. -/
abbrev Handler := Context → Option Context

/-! ## `macro/handler` -/

/-- The `for _, p := range tmpl.Params` loop of `CanMakeHandler`, started
with `needsMacroHandler = false`: it breaks with `true` at the first parameter
whose `CanEval()` is true. -/
def canMakeHandlerLoop : List TemplateParam → Bool
  | [] => false
  | p :: ps => if p.CanEval then true else canMakeHandlerLoop ps

/-- Go `CanMakeHandler`. -/
def CanMakeHandler (tmpl : Template) : Bool :=
  if tmpl.Params.length == 0 then false
  else canMakeHandlerLoop tmpl.Params

/-- The body of the closure that `MakeFilter` returns: the loop over
`tmpl.Params`. -/
def filterLoop : List TemplateParam → Context → Bool × Context
  | [], ctx => (true, ctx)
  | p :: ps, ctx =>
    if !p.CanEval then filterLoop ps ctx
    else
      match ctx.GetEntryAt p.Index with
      | (none, ctx1) => (false, ctx1)
      | (some entry, ctx1) =>
        match ctx1.Eval p entry.String with
        | (false, ctx2) => (false, ctx2.StatusCode p.ErrCode)
        | (true, ctx2) => filterLoop ps ctx2

/-- Go `MakeFilter`; `none` is the nil filter. -/
def MakeFilter (tmpl : Template) : Option Filter :=
  if !CanMakeHandler tmpl then none
  else some (fun ctx => filterLoop tmpl.Params ctx)

/-- Go `MakeHandler`; `none` would be the nil handler.  The returned closure
calls `filter(ctx)`, which panics when `filter` is nil. -/
def MakeHandler (tmpl : Template) : Option Handler :=
  let filter := MakeFilter tmpl
  some (fun ctx =>
    match filter with
    | none => none
    | some f =>
      match f ctx with
      | (false, ctx1) => some ctx1.StopExecution
      | (true, ctx1) => some ctx1.Next)

/-! ## Sample data -/

/-- Evaluator of `uint64`-like parameters: accepts non-empty digit strings and
leaves the store as it is. -/
def evalDigits (paramValue : String) (store : Store) : Bool × Store :=
  (!paramValue.data.isEmpty && paramValue.data.all Char.isDigit, store)

/-- Evaluator that accepts every value. -/
def evalAny (_paramValue : String) (store : Store) : Bool × Store := (true, store)

/-- Sample descriptor of an untyped placeholder at an index. -/
def untypedParam (name : String) (index : Nat) : TemplateParam :=
  { Name := name, Index := index, ErrCode := 404, canEval := false, Eval := evalAny }

/-- Sample descriptor of a numeric placeholder at an index, with an error
code. -/
def digitsParam (name : String) (index : Nat) (errCode : Int) : TemplateParam :=
  { Name := name, Index := index, ErrCode := errCode, canEval := true, Eval := evalDigits }

/-- Sample request context: the captures, status 200, no call made. -/
def requestOf (raws : List String) : Context :=
  { store := raws.map (fun v => { Key := "", ValueRaw := v }), statusCode := 200, calls := [] }

/-- Sample template of the pattern `/{a}/{b:uint64 else 404}`. -/
def tmplAB : Template :=
  { Src := "/{a}/{b:uint64 else 404}", Params := [untypedParam "a" 0, digitsParam "b" 1 404] }

/-- Sample template of the pattern
`/{x:uint64 else 400}/{y:uint64 else 404}/{z:uint64 else 500}`. -/
def tmplXYZ : Template :=
  { Src := "/{x:uint64 else 400}/{y:uint64 else 404}/{z:uint64 else 500}",
    Params := [digitsParam "x" 0 400, digitsParam "y" 1 404, digitsParam "z" 2 500] }

/-- Sample template of the pattern `/{id:uint64 else 200}`. -/
def tmplElse200 : Template :=
  { Src := "/{id:uint64 else 200}", Params := [digitsParam "id" 0 200] }

/-- What a caller observes of a run of the filter: the returned boolean and
the status code of the response. -/
def outcome (r : Bool × Context) : Bool × Int := (r.1, r.2.statusCode)

/-! ## The evaluation pass in the words of the specification -/

/-- The specification of the evaluation pass: `Passes ps s t` says that,
going through the descriptors `ps` in declaration order from the store `s`,
every descriptor that needs evaluation finds an entry at its index in the
store as it then is, its evaluator accepts the string of that entry, and the
store left at the end is `t`.  Descriptors that need no evaluation are
skipped. -/
inductive Passes : List TemplateParam → Store → Store → Prop
  | nil (s : Store) : Passes [] s s
  | skip {p : TemplateParam} {ps : List TemplateParam} {s t : Store} :
      p.CanEval = false → Passes ps s t → Passes (p :: ps) s t
  | eval {p : TemplateParam} {ps : List TemplateParam} {s s1 t : Store} {e : Entry} :
      p.CanEval = true → s.GetEntryAt p.Index = some e →
      p.Eval e.String s = (true, s1) → Passes ps s1 t → Passes (p :: ps) s t

/-! ## Names of descriptors and recorded calls -/

/-- Two descriptors that differ at most in their `Name`. -/
def SameButName (p q : TemplateParam) : Prop :=
  p.Index = q.Index ∧ p.ErrCode = q.ErrCode ∧ p.canEval = q.canEval ∧ p.Eval = q.Eval

/-- Sample template: two numeric placeholders whose `Index` is not their
position in `Params`. -/
def tmplYX : Template :=
  { Src := "/{x:uint64 else 400}/{y:uint64 else 404}",
    Params := [digitsParam "y" 1 404, digitsParam "x" 0 400] }

/-- The template `tmplYX` with other names for its placeholders. -/
def tmplYXRenamed : Template :=
  { Src := "/{id:uint64 else 400}/{name:uint64 else 404}",
    Params := [digitsParam "name" 1 404, digitsParam "id" 0 400] }

/-! ## The jet view engine (`view/jet.go`)

A run-time panic of the Go code is the result `none`. -/

/-- Go `jetExtensions`. -/
def jetExtensions : List String := [".html.jet", ".jet.html", ".jet"]

/-- The loop `for _, ext := range jetExtensions { if ext == x { extOK = true; break } }`
of `Jet` and of `Binary`, started with `extOK = false`. -/
def extOKLoop : List String → String → Bool
  | [], _ => false
  | ext :: rest, x => if ext == x then true else extOKLoop rest x

/-- A value of type `interface{}` handed to `AddVar` or `AddFunc`, by its
dynamic type: a `func(string, ...interface{}) string`, a `jet.Func`, a
`func(JetArguments) reflect.Value`, the closure that `AddFunc` builds around a
function of the first kind, or any other value. -/
inductive JetValue where
  | generalFunc (id : String)
  | jetFunc (id : String)
  | argumentsFunc (id : String)
  | generalFuncWrapper (funcName : String) (id : String)
  | data (v : String)
deriving DecidableEq, Repr

/-- Go `embeddedLoader`; the set `names` is the list of its members. -/
structure embeddedLoader where
  vdir : String
  asset : String → Option (List UInt8)
  names : List String

/-- The `jet.Loader` held by an engine: the loader of `jet.NewOSFileSystemLoader`
or an `embeddedLoader`. -/
inductive JetLoader where
  | osFileSystem (directory : String)
  | embedded (l : embeddedLoader)

/-- A Go `map[string]interface{}` with its keys in some order of iteration;
a key occurs once. -/
abbrev VarMap := List (String × JetValue)

/-- The assignment `m[key] = value` on a map. -/
def VarMap.assign (m : VarMap) (key : String) (value : JetValue) : VarMap :=
  if m.any (fun kv => kv.1 == key) then
    m.map (fun kv => if kv.1 == key then (key, value) else kv)
  else m ++ [(key, value)]

/-- The part of `*jet.Set` (the CloudyKit/jet library) that the engine uses:
the loader it was made with, the development mode, the action delimiters and
the globals. -/
structure JetSet where
  loader : JetLoader
  developmentMode : Bool
  leftDelim : String
  rightDelim : String
  globals : VarMap

/-- The library call `jet.NewHTMLSetLoader(loader)`: a new set with no
delimiter assigned (an empty delimiter stands for the default of the library)
and no global added by the engine. -/
def NewHTMLSetLoader (loader : JetLoader) : JetSet :=
  { loader := loader, developmentMode := false, leftDelim := "", rightDelim := "",
    globals := [] }

/-- The library call `set.SetDevelopmentMode(b)`. -/
def JetSet.SetDevelopmentMode (set : JetSet) (b : Bool) : JetSet :=
  { set with developmentMode := b }

/-- The library call `set.AddGlobal(key, value)`. -/
def JetSet.AddGlobal (set : JetSet) (key : String) (value : JetValue) : JetSet :=
  { set with globals := set.globals.assign key value }

/-- The library call `set.Delims(left, right)` on a `*jet.Set` that may be nil:
the method assigns the two delimiter fields of its receiver, which on a nil
receiver is a nil pointer dereference. -/
def JetSet.Delims (set : Option JetSet) (left right : String) : Option JetSet :=
  match set with
  | none => none
  | some st => some { st with leftDelim := left, rightDelim := right }

/-- Go `JetEngine`; `Set = none` is the nil `*jet.Set`, `vars = none` the nil
map. -/
structure JetEngine where
  directory : String
  extension : String
  loader : JetLoader
  developmentMode : Bool
  Set : Option JetSet
  vars : Option VarMap
  jetRangerRendererContextKey : String

/-- Go `Jet`; it panics on an extension that is not one of `jetExtensions`. -/
def Jet (directory extension : String) : Option JetEngine :=
  if !extOKLoop jetExtensions extension then none
  else
    some { directory := directory, extension := extension,
           loader := JetLoader.osFileSystem directory, developmentMode := false,
           Set := none, vars := none, jetRangerRendererContextKey := "" }

/-- Go `JetEngine.Delims`: `s.Set.Delims(left, right); return s`. -/
def JetEngine.Delims (s : JetEngine) (left right : String) : Option JetEngine :=
  match JetSet.Delims s.Set left right with
  | none => none
  | some st => some { s with Set := some st }

/-- Go `JetEngine.AddVar`. -/
def JetEngine.AddVar (s : JetEngine) (key : String) (value : JetValue) : JetEngine :=
  match s.Set with
  | some st => { s with Set := some (st.AddGlobal key value) }
  | none =>
    let vars : VarMap := match s.vars with
      | none => []
      | some m => m
    { s with vars := some (vars.assign key value) }

/-- Go `JetEngine.AddFunc`; it panics when `funcBody` is no function of one of
the three accepted types. -/
def JetEngine.AddFunc (s : JetEngine) (funcName : String) (funcBody : JetValue) :
    Option JetEngine :=
  match funcBody with
  | JetValue.generalFunc id => some (s.AddVar funcName (JetValue.generalFuncWrapper funcName id))
  | JetValue.jetFunc id => some (s.AddVar funcName (JetValue.jetFunc id))
  | JetValue.argumentsFunc id => some (s.AddVar funcName (JetValue.jetFunc id))
  | _ => none

/-- Go `JetEngine.Load`; the error it returns is always nil. -/
def JetEngine.Load (s : JetEngine) : JetEngine :=
  let set := (NewHTMLSetLoader s.loader).SetDevelopmentMode s.developmentMode
  let set := match s.vars with
    | none => set
    | some vars => vars.foldl (fun st kv => st.AddGlobal kv.1 kv.2) set
  { s with Set := some set }

/-- Go `embeddedFile`: the contents and the number of bytes read so far (an
`int64`; it stays between 0 and `len(contents)`, so no addition wraps). -/
structure embeddedFile where
  contents : List UInt8
  readen : Int
deriving DecidableEq, Repr

/-- The errors that `Read` returns: `io.EOF` (`none` is the nil error). -/
inductive ReadError where
  | EOF
deriving DecidableEq, Repr

/-- What a call `f.Read(p)` leaves: the two results, the buffer `p` and the
file `f` after the call. -/
structure ReadReturn where
  n : Int
  err : Option ReadError
  p : List UInt8
  f : embeddedFile
deriving DecidableEq, Repr

/-- The Go builtin `copy(dst, src)`: the number of bytes copied, the minimum of
the two lengths, and `dst` after the call. -/
def goCopy (dst src : List UInt8) : Nat × List UInt8 :=
  (min dst.length src.length, src.take (min dst.length src.length) ++
    dst.drop (min dst.length src.length))

/-- Go `embeddedFile.Read`.  The slice expression `f.contents[f.readen:]`
panics when `f.readen` is negative. -/
def embeddedFile.Read (f : embeddedFile) (p : List UInt8) : Option ReadReturn :=
  if f.readen ≥ (f.contents.length : Int) then
    some { n := 0, err := some ReadError.EOF, p := p, f := f }
  else if f.readen < 0 then none
  else
    let r := goCopy p (f.contents.drop f.readen.toNat)
    some { n := (r.1 : Int), err := none, p := r.2,
           f := { f with readen := f.readen + (r.1 : Int) } }

/-- Go `embeddedLoader.Open`: the file on the contents that `asset` gives, with
nothing read; `none` is the error of `asset`. -/
def embeddedLoader.Open (l : embeddedLoader) (name : String) : Option embeddedFile :=
  match l.asset name with
  | none => none
  | some contents => some { contents := contents, readen := 0 }

/-- Consecutive calls of `Read` on one file, one for each of the buffers: the
file after the last call and the bytes the calls returned, in order (of each
buffer its first `n` bytes); `none` when a call panics. -/
def readCalls : embeddedFile → List (List UInt8) → Option (embeddedFile × List UInt8)
  | f, [] => some (f, [])
  | f, p :: ps =>
    match f.Read p with
    | none => none
    | some r =>
      match readCalls r.f ps with
      | none => none
      | some (g, out) => some (g, r.p.take r.n.toNat ++ out)

/-- The loop of Go `path.Ext` over the path read from its end:
`for i := len(path) - 1; i >= 0 && path[i] != '/'; i--`, returning `path[i:]`
at the first dot; `acc` is the part of the path already passed. -/
def pathExtLoop : List Char → List Char → List Char
  | [], _ => []
  | c :: rest, acc =>
    if c == '/' then []
    else if c == '.' then '.' :: acc
    else pathExtLoop rest (c :: acc)

/-- Go `path.Ext`: the suffix that begins at the last dot of the last
slash-separated element of the path, empty when there is no dot. -/
def pathExt (path : String) : String :=
  String.mk (pathExtLoop path.data.reverse [])

/-- Go `strings.HasPrefix`. -/
def HasPrefix (s pre : String) : Bool :=
  pre.data.isPrefixOf s.data

/-- Go `strings.HasSuffix`. -/
def HasSuffix (s suf : String) : Bool :=
  suf.data.isSuffixOf s.data

/-- Go `os.PathSeparator`, on a Unix system. -/
def osPathSeparator : Char := '/'

/-- The first statements of `Binary`, which compute `vdir` from
`s.directory`: a leading dot is dropped, then a leading slash or path
separator, then a trailing slash.  Each of the three index expressions
`vdir[0]`, `vdir[0]`, `vdir[len(vdir)-1]` panics on an empty `vdir`. -/
def binaryVdir (directory : String) : Option String :=
  match directory.data with
  | [] => none
  | c0 :: rest0 =>
    let vdir1 := if c0 == '.' then rest0 else c0 :: rest0
    match vdir1 with
    | [] => none
    | c1 :: rest1 =>
      let vdir2 := if c1 == '/' || c1 == osPathSeparator then rest1 else c1 :: rest1
      match vdir2.getLast? with
      | none => none
      | some last =>
        some (String.mk (if last == '/' then vdir2.dropLast else vdir2))

/-- The loop `for _, name := range namesSlice` of `Binary`, which fills the
set `names`. -/
def binaryNamesLoop (vdir : String) : List String → List String → List String
  | [], names => names
  | name :: rest, names =>
    if !HasPrefix name vdir then binaryNamesLoop vdir rest names
    else if !extOKLoop jetExtensions (pathExt name) then binaryNamesLoop vdir rest names
    else binaryNamesLoop vdir rest (if names.contains name then names else names ++ [name])

/-- Go `JetEngine.Binary`, with the slice that `assetNames()` returns.  It
panics on an index out of range while computing `vdir`, and when no name was
kept. -/
def JetEngine.Binary (s : JetEngine) (assetFn : String → Option (List UInt8))
    (assetNames : List String) : Option JetEngine :=
  match binaryVdir s.directory with
  | none => none
  | some vdir =>
    let names := binaryNamesLoop vdir assetNames []
    if names.length == 0 then none
    else
      let loader : embeddedLoader := { vdir := vdir, asset := assetFn, names := names }
      some { s with loader := JetLoader.embedded loader }

/-- The names in the set of the embedded loader of an engine; `none` when the
loader is not an embedded one. -/
def JetEngine.embeddedNames (s : JetEngine) : Option (List String) :=
  match s.loader with
  | JetLoader.embedded l => some l.names
  | JetLoader.osFileSystem _ => none

/-- Sample asset function: every asset is empty. -/
def sampleAsset (_name : String) : Option (List UInt8) := some []

/-- The indexes of the store lookups among recorded calls, in order. -/
def lookupsOf (cs : List Call) : List Nat :=
  cs.filterMap (fun c => match c with
    | Call.GetEntryAt i => some i
    | _ => none)

/-- The indexes of the descriptors whose `Eval` is among recorded calls, in
order. -/
def evalsOf (cs : List Call) : List Nat :=
  cs.filterMap (fun c => match c with
    | Call.Eval i _ => some i
    | _ => none)

/-- The `Index` of each descriptor that needs evaluation, in declaration
order. -/
def evalIndexes (ps : List TemplateParam) : List Nat :=
  (ps.filter (fun p => p.CanEval)).map (fun p => p.Index)

/-- Sample template of the pattern `/{a}/{b:uint64 else 404}/{c}`. -/
def tmplABC : Template :=
  { Src := "/{a}/{b:uint64 else 404}/{c}",
    Params := [untypedParam "a" 0, digitsParam "b" 1 404, untypedParam "c" 2] }

/-! ## Lemmas on the loops -/

theorem canMakeHandlerLoop_iff (ps : List TemplateParam) :
    canMakeHandlerLoop ps = true ↔ ∃ p ∈ ps, p.CanEval = true := by
  induction ps with
  | nil => simp [canMakeHandlerLoop]
  | cons p ps ih =>
    by_cases hp : p.CanEval = true
    · simp [canMakeHandlerLoop, hp]
    · simp [canMakeHandlerLoop, hp, ih]

theorem CanMakeHandler_eq_loop (tmpl : Template) :
    CanMakeHandler tmpl = canMakeHandlerLoop tmpl.Params := by
  unfold CanMakeHandler
  cases h : tmpl.Params with
  | nil => simp [canMakeHandlerLoop]
  | cons p ps => simp

theorem filterLoop_cons_skip (p : TemplateParam) (ps : List TemplateParam) (ctx : Context)
    (hp : p.CanEval = false) : filterLoop (p :: ps) ctx = filterLoop ps ctx := by
  simp [filterLoop, hp]

theorem filterLoop_cons_missing (p : TemplateParam) (ps : List TemplateParam) (ctx : Context)
    (hp : p.CanEval = true) (hm : ctx.store.GetEntryAt p.Index = none) :
    filterLoop (p :: ps) ctx =
      (false, { ctx with calls := ctx.calls ++ [Call.GetEntryAt p.Index] }) := by
  simp [filterLoop, hp, Context.GetEntryAt, hm]

theorem filterLoop_cons_fail (p : TemplateParam) (ps : List TemplateParam) (ctx : Context)
    (e : Entry) (s1 : Store)
    (hp : p.CanEval = true) (he : ctx.store.GetEntryAt p.Index = some e)
    (hf : p.Eval e.String ctx.store = (false, s1)) :
    filterLoop (p :: ps) ctx =
      (false, { store := s1, statusCode := p.ErrCode,
                calls := ctx.calls ++ [Call.GetEntryAt p.Index, Call.Eval p.Index e.String,
                  Call.StatusCode p.ErrCode] }) := by
  simp [filterLoop, hp, Context.GetEntryAt, he, Context.Eval, hf, Context.StatusCode]

theorem filterLoop_cons_pass (p : TemplateParam) (ps : List TemplateParam) (ctx : Context)
    (e : Entry) (s1 : Store)
    (hp : p.CanEval = true) (he : ctx.store.GetEntryAt p.Index = some e)
    (hf : p.Eval e.String ctx.store = (true, s1)) :
    filterLoop (p :: ps) ctx =
      filterLoop ps { store := s1, statusCode := ctx.statusCode,
                      calls := ctx.calls ++ [Call.GetEntryAt p.Index,
                        Call.Eval p.Index e.String] } := by
  simp [filterLoop, hp, Context.GetEntryAt, he, Context.Eval, hf]

/-- The four ways one step of the loop can go. -/
theorem filterLoop_cons_cases (p : TemplateParam) (ctx : Context) :
    p.CanEval = false ∨
    (p.CanEval = true ∧ ctx.store.GetEntryAt p.Index = none) ∨
    (p.CanEval = true ∧ ∃ e s1, ctx.store.GetEntryAt p.Index = some e ∧
      p.Eval e.String ctx.store = (false, s1)) ∨
    (p.CanEval = true ∧ ∃ e s1, ctx.store.GetEntryAt p.Index = some e ∧
      p.Eval e.String ctx.store = (true, s1)) := by
  cases hp : p.CanEval with
  | false => exact Or.inl rfl
  | true =>
    right
    cases he : ctx.store.GetEntryAt p.Index with
    | none => exact Or.inl ⟨rfl, rfl⟩
    | some e =>
      right
      rcases hf : p.Eval e.String ctx.store with ⟨b, s1⟩
      cases b with
      | false => exact Or.inl ⟨rfl, e, s1, rfl, hf⟩
      | true => exact Or.inr ⟨rfl, e, s1, rfl, hf⟩

/-- Running the loop over a concatenation: the second part runs from the
context the first part leaves, and only when the first part accepted. -/
theorem filterLoop_append (pre post : List TemplateParam) (ctx : Context) :
    filterLoop (pre ++ post) ctx =
      if (filterLoop pre ctx).1 = true then filterLoop post (filterLoop pre ctx).2
      else filterLoop pre ctx := by
  induction pre generalizing ctx with
  | nil => simp [filterLoop]
  | cons p ps ih =>
    rcases filterLoop_cons_cases p ctx with hp | ⟨hp, hm⟩ | ⟨hp, e, s1, he, hf⟩ |
        ⟨hp, e, s1, he, hf⟩
    · rw [List.cons_append, filterLoop_cons_skip _ _ _ hp, filterLoop_cons_skip _ _ _ hp, ih]
    · rw [List.cons_append, filterLoop_cons_missing _ _ _ hp hm,
        filterLoop_cons_missing _ _ _ hp hm]
      simp
    · rw [List.cons_append, filterLoop_cons_fail _ _ _ e s1 hp he hf,
        filterLoop_cons_fail _ _ _ e s1 hp he hf]
      simp
    · rw [List.cons_append, filterLoop_cons_pass _ _ _ e s1 hp he hf,
        filterLoop_cons_pass _ _ _ e s1 hp he hf, ih]

/-- An accepting run leaves the status code as it was and only adds calls. -/
theorem filterLoop_true_frame (ps : List TemplateParam) (ctx ctx1 : Context)
    (h : filterLoop ps ctx = (true, ctx1)) :
    ctx1.statusCode = ctx.statusCode ∧ ∃ cs, ctx1.calls = ctx.calls ++ cs := by
  induction ps generalizing ctx with
  | nil =>
    simp [filterLoop] at h
    subst h
    exact ⟨rfl, [], by simp⟩
  | cons p ps ih =>
    rcases filterLoop_cons_cases p ctx with hp | ⟨hp, hm⟩ | ⟨hp, e, s1, he, hf⟩ |
        ⟨hp, e, s1, he, hf⟩
    · rw [filterLoop_cons_skip _ _ _ hp] at h
      exact ih ctx h
    · rw [filterLoop_cons_missing _ _ _ hp hm] at h
      simp at h
    · rw [filterLoop_cons_fail _ _ _ e s1 hp he hf] at h
      simp at h
    · rw [filterLoop_cons_pass _ _ _ e s1 hp he hf] at h
      obtain ⟨h1, cs, h2⟩ := ih _ h
      exact ⟨h1, _, by rw [h2, List.append_assoc]⟩

/-- A passing run of the specification is an accepting run of the loop that
leaves the store of the specification. -/
theorem filterLoop_of_Passes (ps : List TemplateParam) (s t : Store) (hp : Passes ps s t) :
    ∀ ctx : Context, ctx.store = s →
      ∃ ctx1, filterLoop ps ctx = (true, ctx1) ∧ ctx1.store = t := by
  induction hp with
  | nil s =>
    intro ctx hs
    exact ⟨ctx, by simp [filterLoop], hs⟩
  | skip hc _ ih =>
    intro ctx hs
    rw [filterLoop_cons_skip _ _ _ hc]
    exact ih ctx hs
  | eval hc he hf _ ih =>
    intro ctx hs
    subst hs
    rw [filterLoop_cons_pass _ _ _ _ _ hc he hf]
    exact ih _ rfl

/-- An accepting run of the loop is a passing run of the specification. -/
theorem Passes_of_filterLoop (ps : List TemplateParam) (ctx ctx1 : Context)
    (h : filterLoop ps ctx = (true, ctx1)) : Passes ps ctx.store ctx1.store := by
  induction ps generalizing ctx with
  | nil =>
    simp [filterLoop] at h
    subst h
    exact Passes.nil _
  | cons p ps ih =>
    rcases filterLoop_cons_cases p ctx with hp | ⟨hp, hm⟩ | ⟨hp, e, s1, he, hf⟩ |
        ⟨hp, e, s1, he, hf⟩
    · rw [filterLoop_cons_skip _ _ _ hp] at h
      exact Passes.skip hp (ih ctx h)
    · rw [filterLoop_cons_missing _ _ _ hp hm] at h
      simp at h
    · rw [filterLoop_cons_fail _ _ _ e s1 hp he hf] at h
      simp at h
    · rw [filterLoop_cons_pass _ _ _ e s1 hp he hf] at h
      exact Passes.eval hp he hf (ih _ h)

theorem MakeFilter_eq_some (tmpl : Template) (filter : Filter)
    (h : MakeFilter tmpl = some filter) :
    CanMakeHandler tmpl = true ∧ filter = fun ctx => filterLoop tmpl.Params ctx := by
  unfold MakeFilter at h
  cases hc : CanMakeHandler tmpl with
  | false => simp [hc] at h
  | true =>
    simp [hc] at h
    exact ⟨rfl, h.symm⟩

theorem MakeFilter_of_exists (tmpl : Template) (h : ∃ p ∈ tmpl.Params, p.CanEval = true) :
    MakeFilter tmpl = some (fun ctx => filterLoop tmpl.Params ctx) := by
  have hc : CanMakeHandler tmpl = true := by
    rw [CanMakeHandler_eq_loop, canMakeHandlerLoop_iff]
    exact h
  simp [MakeFilter, hc]

/-- The calls of one run of the loop are appended to those made before, and
none of them is `Next` or `StopExecution`. -/
theorem filterLoop_calls (ps : List TemplateParam) (ctx : Context) :
    ∃ cs, (filterLoop ps ctx).2.calls = ctx.calls ++ cs ∧
      cs.count Call.Next = 0 ∧ cs.count Call.StopExecution = 0 := by
  induction ps generalizing ctx with
  | nil => exact ⟨[], by simp [filterLoop]⟩
  | cons p ps ih =>
    rcases filterLoop_cons_cases p ctx with hp | ⟨hp, hm⟩ | ⟨hp, e, s1, he, hf⟩ |
        ⟨hp, e, s1, he, hf⟩
    · rw [filterLoop_cons_skip _ _ _ hp]
      exact ih ctx
    · rw [filterLoop_cons_missing _ _ _ hp hm]
      exact ⟨_, rfl, by simp, by simp⟩
    · rw [filterLoop_cons_fail _ _ _ e s1 hp he hf]
      exact ⟨_, rfl, by simp, by simp⟩
    · rw [filterLoop_cons_pass _ _ _ e s1 hp he hf]
      obtain ⟨cs, h1, h2, h3⟩ := ih
        { store := s1, statusCode := ctx.statusCode,
          calls := ctx.calls ++ [Call.GetEntryAt p.Index, Call.Eval p.Index e.String] }
      refine ⟨[Call.GetEntryAt p.Index, Call.Eval p.Index e.String] ++ cs, ?_, ?_, ?_⟩
      · rw [h1, List.append_assoc]
      · rw [List.count_append, h2]
        simp
      · rw [List.count_append, h3]
        simp

/-- Descriptors that need no evaluation can be dropped from the loop. -/
theorem filterLoop_filter_CanEval (ps : List TemplateParam) (ctx : Context) :
    filterLoop (ps.filter (fun p => p.CanEval)) ctx = filterLoop ps ctx := by
  induction ps generalizing ctx with
  | nil => rfl
  | cons p ps ih =>
    rcases filterLoop_cons_cases p ctx with hp | ⟨hp, hm⟩ | ⟨hp, e, s1, he, hf⟩ |
        ⟨hp, e, s1, he, hf⟩
    · rw [List.filter_cons_of_neg (by simp [hp]), filterLoop_cons_skip _ _ _ hp, ih]
    · rw [List.filter_cons_of_pos (by simp [hp]), filterLoop_cons_missing _ _ _ hp hm,
        filterLoop_cons_missing _ _ _ hp hm]
    · rw [List.filter_cons_of_pos (by simp [hp]), filterLoop_cons_fail _ _ _ e s1 hp he hf,
        filterLoop_cons_fail _ _ _ e s1 hp he hf]
    · rw [List.filter_cons_of_pos (by simp [hp]), filterLoop_cons_pass _ _ _ e s1 hp he hf,
        filterLoop_cons_pass _ _ _ e s1 hp he hf, ih]

/-- The loop at a descriptor whose evaluator rejects, after an accepted
beginning. -/
theorem filterLoop_fail_at (pre post : List TemplateParam) (p : TemplateParam)
    (ctx ctx1 : Context) (e : Entry) (s1 : Store)
    (hpre : filterLoop pre ctx = (true, ctx1)) (hp : p.CanEval = true)
    (he : ctx1.store.GetEntryAt p.Index = some e)
    (hf : p.Eval e.String ctx1.store = (false, s1)) :
    filterLoop (pre ++ p :: post) ctx =
      (false, { store := s1, statusCode := p.ErrCode,
                calls := ctx1.calls ++ [Call.GetEntryAt p.Index, Call.Eval p.Index e.String,
                  Call.StatusCode p.ErrCode] }) := by
  rw [filterLoop_append, hpre]
  simp only [if_true]
  exact filterLoop_cons_fail p post ctx1 e s1 hp he hf

/-- The loop at a descriptor whose entry is missing, after an accepted
beginning. -/
theorem filterLoop_missing_at (pre post : List TemplateParam) (p : TemplateParam)
    (ctx ctx1 : Context)
    (hpre : filterLoop pre ctx = (true, ctx1)) (hp : p.CanEval = true)
    (hm : ctx1.store.GetEntryAt p.Index = none) :
    filterLoop (pre ++ p :: post) ctx =
      (false, { ctx1 with calls := ctx1.calls ++ [Call.GetEntryAt p.Index] }) := by
  rw [filterLoop_append, hpre]
  simp only [if_true]
  exact filterLoop_cons_missing p post ctx1 hp hm

theorem MakeFilter_of_mem (tmpl : Template) (pre post : List TemplateParam)
    (p : TemplateParam) (hparams : tmpl.Params = pre ++ p :: post) (hp : p.CanEval = true) :
    MakeFilter tmpl = some (fun ctx => filterLoop tmpl.Params ctx) :=
  MakeFilter_of_exists tmpl ⟨p, by simp [hparams], hp⟩

theorem MakeHandler_apply (tmpl : Template) (filter : Filter) (handler : Handler)
    (ctx : Context) (hf : MakeFilter tmpl = some filter) (hh : MakeHandler tmpl = some handler) :
    handler ctx =
      if (filter ctx).1 = true then some (filter ctx).2.Next
      else some (filter ctx).2.StopExecution := by
  simp only [MakeHandler, hf, Option.some.injEq] at hh
  subst hh
  show (match filter ctx with
    | (false, ctx1) => some ctx1.StopExecution
    | (true, ctx1) => some ctx1.Next) = _
  rcases filter ctx with ⟨b, c1⟩
  cases b <;> simp

/-! ## Lemmas on names and on recorded calls -/

theorem canMakeHandlerLoop_SameButName (ps qs : List TemplateParam)
    (h : List.Forall₂ SameButName ps qs) : canMakeHandlerLoop ps = canMakeHandlerLoop qs := by
  induction h with
  | nil => rfl
  | cons hpq _ ih =>
    obtain ⟨_, _, hc, _⟩ := hpq
    simp only [canMakeHandlerLoop, TemplateParam.CanEval, hc, ih]

theorem filterLoop_SameButName (ps qs : List TemplateParam)
    (h : List.Forall₂ SameButName ps qs) (ctx : Context) :
    filterLoop ps ctx = filterLoop qs ctx := by
  induction h generalizing ctx with
  | nil => rfl
  | @cons p q ps qs hpq _ ih =>
    obtain ⟨hi, hc, hv, hev⟩ := hpq
    have hcan : q.CanEval = p.CanEval := by simp [TemplateParam.CanEval, hv]
    rcases filterLoop_cons_cases p ctx with hp | ⟨hp, hm⟩ | ⟨hp, e, s1, he, hf⟩ |
        ⟨hp, e, s1, he, hf⟩
    · rw [filterLoop_cons_skip _ _ _ hp, filterLoop_cons_skip _ _ _ (hcan.trans hp), ih]
    · rw [filterLoop_cons_missing _ _ _ hp hm,
        filterLoop_cons_missing _ _ _ (hcan.trans hp) (hi ▸ hm), hi]
    · rw [filterLoop_cons_fail _ _ _ e s1 hp he hf,
        filterLoop_cons_fail _ _ _ e s1 (hcan.trans hp) (hi ▸ he) (hev ▸ hf), hi, hc]
    · rw [filterLoop_cons_pass _ _ _ e s1 hp he hf,
        filterLoop_cons_pass _ _ _ e s1 (hcan.trans hp) (hi ▸ he) (hev ▸ hf), hi, ih]

/-! ## Lemmas on `embeddedFile.Read` -/

theorem embeddedFile.Read_of_lt (contents p : List UInt8) (k : Nat)
    (hk : k < contents.length) :
    embeddedFile.Read { contents := contents, readen := (k : Int) } p =
      some { n := ((min p.length (contents.length - k) : Nat) : Int), err := none,
             p := (contents.drop k).take (min p.length (contents.length - k)) ++
               p.drop (min p.length (contents.length - k)),
             f := { contents := contents,
                    readen := ((k + min p.length (contents.length - k) : Nat) : Int) } } := by
  have h1 : ¬ ((k : Int) ≥ (contents.length : Int)) := by omega
  have h2 : ¬ ((k : Int) < 0) := by omega
  simp only [embeddedFile.Read, h1, h2, if_false, goCopy, Int.toNat_ofNat, List.length_drop]
  simp

theorem embeddedFile.Read_of_ge (f : embeddedFile) (p : List UInt8)
    (hk : (f.contents.length : Int) ≤ f.readen) :
    f.Read p = some { n := 0, err := some ReadError.EOF, p := p, f := f } := by
  simp [embeddedFile.Read, hk]

/-- Consecutive reads from the offset `k` return the bytes from `k` up to the
offset they stop at. -/
theorem readCalls_from (contents : List UInt8) (bufs : List (List UInt8)) (k : Nat)
    (hk : k ≤ contents.length) :
    ∃ (m : Nat) (out : List UInt8), k ≤ m ∧ m ≤ contents.length ∧
      readCalls { contents := contents, readen := (k : Int) } bufs =
        some ({ contents := contents, readen := (m : Int) }, out) ∧
      out = (contents.drop k).take (m - k) := by
  induction bufs generalizing k with
  | nil => exact ⟨k, [], le_refl k, hk, rfl, by simp⟩
  | cons p ps ih =>
    rcases Nat.lt_or_ge k contents.length with hlt | hge
    · obtain ⟨m, out, hkm, hm, hrun, hout⟩ :=
        ih (k + min p.length (contents.length - k)) (by omega)
      refine ⟨m, (((contents.drop k).take (min p.length (contents.length - k)) ++
          p.drop (min p.length (contents.length - k))).take
            ((min p.length (contents.length - k) : Nat) : Int).toNat ++ out),
        by omega, hm, ?_, ?_⟩
      · simp only [readCalls, embeddedFile.Read_of_lt contents p k hlt, hrun]
      · have hlen : ((contents.drop k).take (min p.length (contents.length - k))).length =
            min p.length (contents.length - k) := by
          simp [List.length_take, List.length_drop]
        simp only [Int.toNat_ofNat]
        rw [List.take_append_of_le_length (by rw [hlen]), List.take_of_length_le (by rw [hlen]),
          hout]
        have hsplit : m - k = min p.length (contents.length - k) +
            (m - (k + min p.length (contents.length - k))) := by omega
        rw [hsplit, List.take_add, List.drop_drop]
    · have hkeq : k = contents.length := by omega
      obtain ⟨m, out, hkm, hm, hrun, hout⟩ := ih k hk
      refine ⟨m, out, hkm, hm, ?_, hout⟩
      have hread := embeddedFile.Read_of_ge
        { contents := contents, readen := (k : Int) } p (by simp [hkeq])
      have hm' : m = k := by omega
      subst hm'
      have hout' : out = [] := by rw [hout]; simp
      simp only [readCalls, hread, hrun, hout']
      simp

theorem evalIndexes_cons_skip (p : TemplateParam) (ps : List TemplateParam)
    (hp : p.CanEval = false) : evalIndexes (p :: ps) = evalIndexes ps := by
  simp [evalIndexes, hp]

theorem evalIndexes_cons_eval (p : TemplateParam) (ps : List TemplateParam)
    (hp : p.CanEval = true) : evalIndexes (p :: ps) = p.Index :: evalIndexes ps := by
  simp [evalIndexes, hp]

/-- The lookups that one run of the loop records are at the indexes of the
descriptors that need evaluation, in declaration order, as far as the run
went; so are the `Eval` calls. -/
theorem filterLoop_calls_by_index (ps : List TemplateParam) (ctx : Context) :
    ∃ cs, (filterLoop ps ctx).2.calls = ctx.calls ++ cs ∧
      lookupsOf cs <+: evalIndexes ps ∧ evalsOf cs <+: evalIndexes ps := by
  induction ps generalizing ctx with
  | nil => exact ⟨[], by simp [filterLoop], by simp [lookupsOf], by simp [evalsOf]⟩
  | cons p ps ih =>
    rcases filterLoop_cons_cases p ctx with hp | ⟨hp, hm⟩ | ⟨hp, e, s1, he, hf⟩ |
        ⟨hp, e, s1, he, hf⟩
    · rw [filterLoop_cons_skip _ _ _ hp, evalIndexes_cons_skip _ _ hp]
      exact ih ctx
    · rw [filterLoop_cons_missing _ _ _ hp hm, evalIndexes_cons_eval _ _ hp]
      refine ⟨[Call.GetEntryAt p.Index], rfl, ?_, ?_⟩
      · simp [lookupsOf, List.cons_prefix_cons]
      · simp [evalsOf]
    · rw [filterLoop_cons_fail _ _ _ e s1 hp he hf, evalIndexes_cons_eval _ _ hp]
      refine ⟨[Call.GetEntryAt p.Index, Call.Eval p.Index e.String,
        Call.StatusCode p.ErrCode], rfl, ?_, ?_⟩
      · simp [lookupsOf, List.cons_prefix_cons]
      · simp [evalsOf, List.cons_prefix_cons]
    · rw [filterLoop_cons_pass _ _ _ e s1 hp he hf, evalIndexes_cons_eval _ _ hp]
      obtain ⟨cs, h1, h2, h3⟩ := ih
        { store := s1, statusCode := ctx.statusCode,
          calls := ctx.calls ++ [Call.GetEntryAt p.Index, Call.Eval p.Index e.String] }
      refine ⟨[Call.GetEntryAt p.Index, Call.Eval p.Index e.String] ++ cs, ?_, ?_, ?_⟩
      · rw [h1, List.append_assoc]
      · simpa [lookupsOf, List.cons_prefix_cons] using h2
      · simpa [evalsOf, List.cons_prefix_cons] using h3

theorem mem_lookupsOf (cs : List Call) (i : Nat) (h : Call.GetEntryAt i ∈ cs) :
    i ∈ lookupsOf cs := by
  unfold lookupsOf
  rw [List.mem_filterMap]
  exact ⟨_, h, rfl⟩

theorem mem_evalsOf (cs : List Call) (i : Nat) (raw : String) (h : Call.Eval i raw ∈ cs) :
    i ∈ evalsOf cs := by
  unfold evalsOf
  rw [List.mem_filterMap]
  exact ⟨_, h, rfl⟩

theorem mem_evalIndexes (ps : List TemplateParam) (i : Nat) (h : i ∈ evalIndexes ps) :
    ∃ q ∈ ps, q.CanEval = true ∧ q.Index = i := by
  unfold evalIndexes at h
  rw [List.mem_map] at h
  obtain ⟨q, hq, hi⟩ := h
  rw [List.mem_filter] at hq
  exact ⟨q, hq.1, hq.2, hi⟩

/-- Two runs of the loop from stores related by `R` go the same way, when
related stores hold the same raw string (or both nothing) at the index of
every descriptor that needs evaluation and the evaluators of these
descriptors answer alike on related stores and leave related stores. -/
theorem filterLoop_related (R : Store → Store → Prop) (ps : List TemplateParam)
    (hlook : ∀ s s', R s s' → ∀ q ∈ ps, q.CanEval = true →
      (s.GetEntryAt q.Index).map Entry.String = (s'.GetEntryAt q.Index).map Entry.String)
    (heval : ∀ s s', R s s' → ∀ q ∈ ps, q.CanEval = true → ∀ raw : String,
      (q.Eval raw s).1 = (q.Eval raw s').1 ∧ R (q.Eval raw s).2 (q.Eval raw s').2)
    (ctx ctx' : Context) (hR : R ctx.store ctx'.store)
    (hcode : ctx.statusCode = ctx'.statusCode) (hcalls : ctx.calls = ctx'.calls) :
    (filterLoop ps ctx).1 = (filterLoop ps ctx').1 ∧
    (filterLoop ps ctx).2.statusCode = (filterLoop ps ctx').2.statusCode ∧
    (filterLoop ps ctx).2.calls = (filterLoop ps ctx').2.calls ∧
    R (filterLoop ps ctx).2.store (filterLoop ps ctx').2.store := by
  induction ps generalizing ctx ctx' with
  | nil => exact ⟨rfl, hcode, hcalls, hR⟩
  | cons p ps ih =>
    have ih' := ih (fun s s' h q hq => hlook s s' h q (List.mem_cons_of_mem _ hq))
      (fun s s' h q hq => heval s s' h q (List.mem_cons_of_mem _ hq))
    cases hp : p.CanEval with
    | false =>
      rw [filterLoop_cons_skip _ _ _ hp, filterLoop_cons_skip _ _ _ hp]
      exact ih' ctx ctx' hR hcode hcalls
    | true =>
      have hl := hlook _ _ hR p (List.mem_cons_self _ _) hp
      cases he : ctx.store.GetEntryAt p.Index with
      | none =>
        cases he' : ctx'.store.GetEntryAt p.Index with
        | none =>
          rw [filterLoop_cons_missing _ _ _ hp he, filterLoop_cons_missing _ _ _ hp he']
          exact ⟨rfl, hcode, by simp [hcalls], hR⟩
        | some e' => simp [he, he'] at hl
      | some e =>
        cases he' : ctx'.store.GetEntryAt p.Index with
        | none => simp [he, he'] at hl
        | some e' =>
          have hstr : e.String = e'.String := by simpa [he, he'] using hl
          obtain ⟨hb, hs⟩ := heval _ _ hR p (List.mem_cons_self _ _) hp e.String
          rcases hf : p.Eval e.String ctx.store with ⟨b, s1⟩
          rcases hf' : p.Eval e.String ctx'.store with ⟨b', s1'⟩
          rw [hf, hf'] at hb hs
          simp only at hb hs
          subst hb
          rw [hstr] at hf'
          cases b with
          | false =>
            rw [filterLoop_cons_fail _ _ _ e s1 hp he hf,
              filterLoop_cons_fail _ _ _ e' s1' hp he' hf']
            exact ⟨rfl, rfl, by simp [hcalls, hstr], hs⟩
          | true =>
            rw [filterLoop_cons_pass _ _ _ e s1 hp he hf,
              filterLoop_cons_pass _ _ _ e' s1' hp he' hf']
            exact ih' _ _ hs hcode (by simp [hcalls, hstr])

/-! ## Claims -/

/-- C1: `CanMakeHandler tmpl` is true exactly when some parameter of the
template has `CanEval() = true`; for a template with no parameters it is
false. -/
theorem CanMakeHandler_iff_exists_CanEval (tmpl : Template) :
    (CanMakeHandler tmpl = true ↔ ∃ p ∈ tmpl.Params, p.CanEval = true) ∧
    (tmpl.Params = [] → CanMakeHandler tmpl = false) := by
  refine ⟨?_, ?_⟩
  · rw [CanMakeHandler_eq_loop, canMakeHandlerLoop_iff]
  · intro h
    simp [CanMakeHandler, h]

/-- C2: `MakeFilter` returns the nil filter for a template with no parameters
or whose parameters all have `CanEval() = false`, returns a filter for a
template with a parameter that has `CanEval() = true`, and so is nil exactly
when `CanMakeHandler` is false. -/
theorem MakeFilter_nil_iff (tmpl : Template) :
    ((tmpl.Params = [] ∨ ∀ p ∈ tmpl.Params, p.CanEval = false) → MakeFilter tmpl = none) ∧
    ((∃ p ∈ tmpl.Params, p.CanEval = true) → (MakeFilter tmpl).isSome = true) ∧
    (MakeFilter tmpl = none ↔ CanMakeHandler tmpl = false) := by
  have key : MakeFilter tmpl = none ↔ CanMakeHandler tmpl = false := by
    unfold MakeFilter
    cases CanMakeHandler tmpl <;> simp
  refine ⟨?_, ?_, key⟩
  · intro h
    rw [key, CanMakeHandler_eq_loop, ← Bool.not_eq_true, canMakeHandlerLoop_iff]
    rintro ⟨p, hp, hc⟩
    rcases h with h | h
    · rw [h] at hp
      simp at hp
    · rw [h p hp] at hc
      simp at hc
  · intro h
    rw [MakeFilter_of_exists tmpl h]
    rfl

/-- C3: for the template of a pattern without placeholders `CanMakeHandler` is
false, yet `MakeHandler` returns a handler that is not nil, and calling that
handler panics on the nil filter. -/
theorem MakeHandler_static_not_nil :
    CanMakeHandler { Src := "/static", Params := [] } = false ∧
    (MakeHandler { Src := "/static", Params := [] }).isSome = true ∧
    ∀ (h : Handler) (ctx : Context),
      MakeHandler { Src := "/static", Params := [] } = some h → h ctx = none := by
  refine ⟨rfl, rfl, ?_⟩
  intro h ctx hh
  simp [MakeHandler, MakeFilter, CanMakeHandler] at hh
  subst hh
  rfl

/-- C4: for a template with at least one evaluable parameter `MakeFilter`
builds a filter, and on every request context that filter returns true exactly
when the evaluation pass of the specification succeeds on the store of the
request: in declaration order, with the store threaded through, every
evaluable parameter finds an entry at its `Index` and its `Eval` accepts the
string of that entry. -/
theorem MakeFilter_accepts_iff_Passes (tmpl : Template)
    (hex : ∃ p ∈ tmpl.Params, p.CanEval = true) :
    ∃ filter, MakeFilter tmpl = some filter ∧
      ∀ ctx : Context, (filter ctx).1 = true ↔ ∃ t, Passes tmpl.Params ctx.store t := by
  refine ⟨_, MakeFilter_of_exists tmpl hex, ?_⟩
  intro ctx
  constructor
  · intro h
    exact ⟨_, Passes_of_filterLoop tmpl.Params ctx (filterLoop tmpl.Params ctx).2
      (Prod.ext h rfl)⟩
  · rintro ⟨t, ht⟩
    obtain ⟨ctx1, h1, _⟩ := filterLoop_of_Passes _ _ _ ht ctx rfl
    show (filterLoop tmpl.Params ctx).1 = true
    rw [h1]

/-- C4, at the template `/{a}/{b:uint64 else 404}`. -/
theorem MakeFilter_accepts_iff_Passes_witness :
    (∃ p ∈ tmplAB.Params, p.CanEval = true) ∧
    ∃ filter, MakeFilter tmplAB = some filter ∧
      ∀ ctx : Context, (filter ctx).1 = true ↔ ∃ t, Passes tmplAB.Params ctx.store t :=
  ⟨⟨digitsParam "b" 1 404, by simp [tmplAB], rfl⟩,
    MakeFilter_accepts_iff_Passes tmplAB ⟨digitsParam "b" 1 404, by simp [tmplAB], rfl⟩⟩

/-- C5: when the parameters before `p` all pass (each evaluable one has an
entry and is accepted), and `p` is evaluable, has an entry and its `Eval`
rejects, the filter returns false and the status code it leaves is the
`ErrCode` of `p`, whatever the parameters after `p` are. -/
theorem filter_records_first_failing_ErrCode (tmpl : Template) (ctx : Context)
    (pre post : List TemplateParam) (p : TemplateParam) (s s1 : Store) (e : Entry)
    (hparams : tmpl.Params = pre ++ p :: post)
    (hpre : Passes pre ctx.store s)
    (hp : p.CanEval = true)
    (he : s.GetEntryAt p.Index = some e)
    (hf : p.Eval e.String s = (false, s1)) :
    ∃ filter, MakeFilter tmpl = some filter ∧
      (filter ctx).1 = false ∧ (filter ctx).2.statusCode = p.ErrCode := by
  refine ⟨_, MakeFilter_of_mem tmpl pre post p hparams hp, ?_⟩
  obtain ⟨ctx1, h1, hs⟩ := filterLoop_of_Passes _ _ _ hpre ctx rfl
  subst hs
  show (filterLoop tmpl.Params ctx).1 = false ∧ (filterLoop tmpl.Params ctx).2.statusCode = _
  rw [hparams, filterLoop_fail_at pre post p ctx ctx1 e s1 h1 hp he hf]
  exact ⟨rfl, rfl⟩

/-- C5, at `/{x:uint64 else 400}/{y:uint64 else 404}/{z:uint64 else 500}` with
the captures `7`, `abc`, `def`: `y` is the first to fail, `z` would fail too,
and the status code is 404. -/
theorem filter_records_first_failing_ErrCode_witness :
    ∃ filter, MakeFilter tmplXYZ = some filter ∧
      (filter (requestOf ["7", "abc", "def"])).1 = false ∧
      (filter (requestOf ["7", "abc", "def"])).2.statusCode = 404 :=
  filter_records_first_failing_ErrCode tmplXYZ (requestOf ["7", "abc", "def"])
    [digitsParam "x" 0 400] [digitsParam "z" 2 500] (digitsParam "y" 1 404)
    (requestOf ["7", "abc", "def"]).store (requestOf ["7", "abc", "def"]).store
    { Key := "", ValueRaw := "abc" } rfl
    (Passes.eval (e := { Key := "", ValueRaw := "7" }) rfl rfl rfl (Passes.nil _))
    rfl rfl rfl

/-- C6: evaluation short-circuits.  When the parameters before `p` are
accepted and leave the context `ctx1`, and `p` is evaluable, has an entry and
its `Eval` rejects, the filter returns false with exactly the store that this
`Eval` left, the `ErrCode` of `p` as status code, and a record of calls that
ends with the lookup, the `Eval` and the `StatusCode` call of `p`: no lookup
and no `Eval` of a later parameter follows, and the result is the one of the
template cut after `p`. -/
theorem filter_short_circuits (tmpl : Template) (ctx ctx1 : Context)
    (pre post : List TemplateParam) (p : TemplateParam) (s1 : Store) (e : Entry)
    (hparams : tmpl.Params = pre ++ p :: post)
    (hpre : filterLoop pre ctx = (true, ctx1))
    (hp : p.CanEval = true)
    (he : ctx1.store.GetEntryAt p.Index = some e)
    (hf : p.Eval e.String ctx1.store = (false, s1)) :
    ∃ filter, MakeFilter tmpl = some filter ∧
      filter ctx =
        (false, { store := s1, statusCode := p.ErrCode,
                  calls := ctx1.calls ++ [Call.GetEntryAt p.Index,
                    Call.Eval p.Index e.String, Call.StatusCode p.ErrCode] }) ∧
      filter ctx = filterLoop (pre ++ [p]) ctx := by
  refine ⟨_, MakeFilter_of_mem tmpl pre post p hparams hp, ?_, ?_⟩
  · show filterLoop tmpl.Params ctx = _
    rw [hparams, filterLoop_fail_at pre post p ctx ctx1 e s1 hpre hp he hf]
  · show filterLoop tmpl.Params ctx = _
    rw [hparams, filterLoop_fail_at pre post p ctx ctx1 e s1 hpre hp he hf,
      filterLoop_fail_at pre [] p ctx ctx1 e s1 hpre hp he hf]

/-- C6, at `/{x:uint64 else 400}/{y:uint64 else 404}/{z:uint64 else 500}` with
the captures `7`, `abc`, `def`: nothing is recorded for `z`. -/
theorem filter_short_circuits_witness :
    ∃ filter, MakeFilter tmplXYZ = some filter ∧
      filter (requestOf ["7", "abc", "def"]) =
        (false, { store := (requestOf ["7", "abc", "def"]).store, statusCode := 404,
                  calls := [Call.GetEntryAt 0, Call.Eval 0 "7", Call.GetEntryAt 1,
                    Call.Eval 1 "abc", Call.StatusCode 404] }) ∧
      filter (requestOf ["7", "abc", "def"]) =
        filterLoop [digitsParam "x" 0 400, digitsParam "y" 1 404]
          (requestOf ["7", "abc", "def"]) :=
  filter_short_circuits tmplXYZ (requestOf ["7", "abc", "def"])
    { store := (requestOf ["7", "abc", "def"]).store, statusCode := 200,
      calls := [Call.GetEntryAt 0, Call.Eval 0 "7"] }
    [digitsParam "x" 0 400] [digitsParam "z" 2 500] (digitsParam "y" 1 404)
    (requestOf ["7", "abc", "def"]).store { Key := "", ValueRaw := "abc" }
    rfl rfl rfl rfl rfl

/-- C7: for a template with at least one evaluable parameter `MakeFilter` and
`MakeHandler` build a filter and a handler; on every request the handler
returns, and among the calls `cs` it made there is exactly one `Next` and no
`StopExecution` when the filter accepts, and exactly one `StopExecution` and
no `Next` when the filter rejects; the latter is the case when the `Eval` of a
parameter rejects after the parameters before it passed. -/
theorem MakeHandler_next_or_stop (tmpl : Template) (ctx : Context)
    (hex : ∃ p ∈ tmpl.Params, p.CanEval = true) :
    ∃ (filter : Filter) (handler : Handler) (ctx' : Context) (cs : List Call),
      MakeFilter tmpl = some filter ∧ MakeHandler tmpl = some handler ∧
      handler ctx = some ctx' ∧ ctx'.calls = ctx.calls ++ cs ∧
      ((filter ctx).1 = true →
        cs.count Call.Next = 1 ∧ cs.count Call.StopExecution = 0) ∧
      ((filter ctx).1 = false →
        cs.count Call.StopExecution = 1 ∧ cs.count Call.Next = 0) ∧
      (∀ (pre post : List TemplateParam) (p : TemplateParam) (s s1 : Store) (e : Entry),
        tmpl.Params = pre ++ p :: post → Passes pre ctx.store s → p.CanEval = true →
        s.GetEntryAt p.Index = some e → p.Eval e.String s = (false, s1) →
        cs.count Call.StopExecution = 1 ∧ cs.count Call.Next = 0) := by
  have hfil := MakeFilter_of_exists tmpl hex
  obtain ⟨handler, hh⟩ : ∃ handler, MakeHandler tmpl = some handler := ⟨_, rfl⟩
  have happ := MakeHandler_apply tmpl _ handler ctx hfil hh
  obtain ⟨cs0, hc, hn, hs⟩ := filterLoop_calls tmpl.Params ctx
  cases hb : (filterLoop tmpl.Params ctx).1 with
  | true =>
    refine ⟨_, handler, (filterLoop tmpl.Params ctx).2.Next, cs0 ++ [Call.Next], hfil, hh,
      ?_, ?_, ?_, ?_, ?_⟩
    · rw [happ]
      simp [hb]
    · simp [Context.Next, hc]
    · intro _
      simp [List.count_append, hn, hs]
    · intro h
      rw [hb] at h
      simp at h
    · intro pre post p s s1 e hparams hpre hp he hf
      obtain ⟨ctx1, h1, hst⟩ := filterLoop_of_Passes _ _ _ hpre ctx rfl
      subst hst
      rw [hparams, filterLoop_fail_at pre post p ctx ctx1 e s1 h1 hp he hf] at hb
      simp at hb
  | false =>
    refine ⟨_, handler, (filterLoop tmpl.Params ctx).2.StopExecution,
      cs0 ++ [Call.StopExecution], hfil, hh, ?_, ?_, ?_, ?_, ?_⟩
    · rw [happ]
      simp [hb]
    · simp [Context.StopExecution, hc]
    · intro h
      rw [hb] at h
      simp at h
    · intro _
      simp [List.count_append, hn, hs]
    · intro pre post p s s1 e _ _ _ _ _
      simp [List.count_append, hn, hs]

/-- C7, at `/{a}/{b:uint64 else 404}` with the captures `x`, `abc`. -/
theorem MakeHandler_next_or_stop_witness :
    (∃ p ∈ tmplAB.Params, p.CanEval = true) ∧
    ∃ (filter : Filter) (handler : Handler) (ctx' : Context) (cs : List Call),
      MakeFilter tmplAB = some filter ∧ MakeHandler tmplAB = some handler ∧
      handler (requestOf ["x", "abc"]) = some ctx' ∧
      ctx'.calls = (requestOf ["x", "abc"]).calls ++ cs ∧
      ((filter (requestOf ["x", "abc"])).1 = true →
        cs.count Call.Next = 1 ∧ cs.count Call.StopExecution = 0) ∧
      ((filter (requestOf ["x", "abc"])).1 = false →
        cs.count Call.StopExecution = 1 ∧ cs.count Call.Next = 0) ∧
      (∀ (pre post : List TemplateParam) (p : TemplateParam) (s s1 : Store) (e : Entry),
        tmplAB.Params = pre ++ p :: post → Passes pre (requestOf ["x", "abc"]).store s →
        p.CanEval = true → s.GetEntryAt p.Index = some e → p.Eval e.String s = (false, s1) →
        cs.count Call.StopExecution = 1 ∧ cs.count Call.Next = 0) :=
  ⟨⟨digitsParam "b" 1 404, by simp [tmplAB], rfl⟩,
    MakeHandler_next_or_stop tmplAB (requestOf ["x", "abc"])
      ⟨digitsParam "b" 1 404, by simp [tmplAB], rfl⟩⟩

/-- C8: when the parameters before `p` are accepted and leave the context
`ctx1`, and `p` is evaluable but the store has no entry at its `Index`, the
filter returns false; the store and the status code are those of `ctx1` and
the only call recorded after those of `ctx1` is the lookup of `p`, so that
neither the `Eval` of `p` nor that of a later parameter is invoked.  The
handler returns as well and stops the chain. -/
theorem filter_missing_entry_aborts (tmpl : Template) (ctx ctx1 : Context)
    (pre post : List TemplateParam) (p : TemplateParam)
    (hparams : tmpl.Params = pre ++ p :: post)
    (hpre : filterLoop pre ctx = (true, ctx1))
    (hp : p.CanEval = true)
    (hm : ctx1.store.GetEntryAt p.Index = none) :
    ∃ (filter : Filter) (handler : Handler),
      MakeFilter tmpl = some filter ∧ MakeHandler tmpl = some handler ∧
      filter ctx =
        (false, { store := ctx1.store, statusCode := ctx1.statusCode,
                  calls := ctx1.calls ++ [Call.GetEntryAt p.Index] }) ∧
      handler ctx =
        some { store := ctx1.store, statusCode := ctx1.statusCode,
               calls := ctx1.calls ++ [Call.GetEntryAt p.Index, Call.StopExecution] } := by
  have hfil := MakeFilter_of_mem tmpl pre post p hparams hp
  obtain ⟨handler, hh⟩ : ∃ handler, MakeHandler tmpl = some handler := ⟨_, rfl⟩
  have happ := MakeHandler_apply tmpl _ handler ctx hfil hh
  have hrun : filterLoop tmpl.Params ctx =
      (false, { store := ctx1.store, statusCode := ctx1.statusCode,
                calls := ctx1.calls ++ [Call.GetEntryAt p.Index] }) := by
    rw [hparams, filterLoop_missing_at pre post p ctx ctx1 hpre hp hm]
  refine ⟨_, handler, hfil, hh, hrun, ?_⟩
  rw [happ]
  simp [hrun, Context.StopExecution]

/-- C8, at `/{x:uint64 else 400}/{y:uint64 else 404}/{z:uint64 else 500}` with
the single capture `7`: the entry of `y` is missing. -/
theorem filter_missing_entry_aborts_witness :
    ∃ (filter : Filter) (handler : Handler),
      MakeFilter tmplXYZ = some filter ∧ MakeHandler tmplXYZ = some handler ∧
      filter (requestOf ["7"]) =
        (false, { store := (requestOf ["7"]).store, statusCode := 200,
                  calls := [Call.GetEntryAt 0, Call.Eval 0 "7", Call.GetEntryAt 1] }) ∧
      handler (requestOf ["7"]) =
        some { store := (requestOf ["7"]).store, statusCode := 200,
               calls := [Call.GetEntryAt 0, Call.Eval 0 "7", Call.GetEntryAt 1,
                 Call.StopExecution] } :=
  filter_missing_entry_aborts tmplXYZ (requestOf ["7"])
    { store := (requestOf ["7"]).store, statusCode := 200,
      calls := [Call.GetEntryAt 0, Call.Eval 0 "7"] }
    [digitsParam "x" 0 400] [digitsParam "z" 2 500] (digitsParam "y" 1 404)
    rfl rfl rfl rfl

/-- C9, as stated, fails: at `/{id:uint64 else 200}`, from a response whose
status code is 200, the filter gives the same outcome (false, 200) when the
entry of `id` is missing and when the entry is present and `Eval` rejects
it. -/
theorem missing_entry_outcome_same_as_failure :
    (requestOf []).store.GetEntryAt (digitsParam "id" 0 200).Index = none ∧
    (requestOf ["abc"]).store.GetEntryAt (digitsParam "id" 0 200).Index =
      some { Key := "", ValueRaw := "abc" } ∧
    ((digitsParam "id" 0 200).Eval "abc" (requestOf ["abc"]).store).1 = false ∧
    (requestOf []).statusCode = (requestOf ["abc"]).statusCode ∧
    (MakeFilter tmplElse200).map (fun f => outcome (f (requestOf []))) = some (false, 200) ∧
    (MakeFilter tmplElse200).map (fun f => outcome (f (requestOf ["abc"]))) =
      some (false, 200) :=
  ⟨rfl, rfl, rfl, rfl, rfl, rfl⟩

/-- C9, amended: take two requests with the same status code on which the
parameters before `p` pass.  If in the first the entry of `p` is missing, the
filter returns false and leaves the status code as it was; if in the second
the entry is present and `Eval` rejects it, the filter returns false and the
status code is the `ErrCode` of `p`.  The two outcomes differ exactly when the
`ErrCode` of `p` differs from the status code the requests started with. -/
theorem missing_entry_outcome_differs_iff (tmpl : Template) (ctxA ctxB : Context)
    (pre post : List TemplateParam) (p : TemplateParam) (sA sB s1 : Store) (e : Entry)
    (hparams : tmpl.Params = pre ++ p :: post)
    (hp : p.CanEval = true)
    (hA : Passes pre ctxA.store sA)
    (hm : sA.GetEntryAt p.Index = none)
    (hB : Passes pre ctxB.store sB)
    (he : sB.GetEntryAt p.Index = some e)
    (hf : p.Eval e.String sB = (false, s1))
    (hcode : ctxA.statusCode = ctxB.statusCode) :
    ∃ filter, MakeFilter tmpl = some filter ∧
      outcome (filter ctxA) = (false, ctxA.statusCode) ∧
      outcome (filter ctxB) = (false, p.ErrCode) ∧
      (outcome (filter ctxA) ≠ outcome (filter ctxB) ↔ p.ErrCode ≠ ctxB.statusCode) := by
  refine ⟨_, MakeFilter_of_mem tmpl pre post p hparams hp, ?_⟩
  obtain ⟨ctxA1, hA1, hsA⟩ := filterLoop_of_Passes _ _ _ hA ctxA rfl
  obtain ⟨ctxB1, hB1, hsB⟩ := filterLoop_of_Passes _ _ _ hB ctxB rfl
  subst hsA
  subst hsB
  have hfr := (filterLoop_true_frame pre ctxA ctxA1 hA1).1
  have h1 : outcome (filterLoop tmpl.Params ctxA) = (false, ctxA.statusCode) := by
    rw [hparams, filterLoop_missing_at pre post p ctxA ctxA1 hA1 hp hm]
    simp [outcome, hfr]
  have h2 : outcome (filterLoop tmpl.Params ctxB) = (false, p.ErrCode) := by
    rw [hparams, filterLoop_fail_at pre post p ctxB ctxB1 e s1 hB1 hp he hf]
    rfl
  refine ⟨h1, h2, ?_⟩
  show outcome (filterLoop tmpl.Params ctxA) ≠ outcome (filterLoop tmpl.Params ctxB) ↔ _
  rw [h1, h2, hcode]
  simp only [ne_eq, Prod.mk.injEq, true_and]
  exact ⟨fun h h' => h h'.symm, fun h h' => h h'.symm⟩

/-- C9 amended, at `/{a}/{b:uint64 else 404}` from status 200: the capture of
`b` missing gives (false, 200), the capture `abc` gives (false, 404). -/
theorem missing_entry_outcome_differs_iff_witness :
    ∃ filter, MakeFilter tmplAB = some filter ∧
      outcome (filter (requestOf ["x"])) = (false, 200) ∧
      outcome (filter (requestOf ["x", "abc"])) = (false, 404) ∧
      (outcome (filter (requestOf ["x"])) ≠ outcome (filter (requestOf ["x", "abc"])) ↔
        (404 : Int) ≠ 200) :=
  missing_entry_outcome_differs_iff tmplAB (requestOf ["x"]) (requestOf ["x", "abc"])
    [untypedParam "a" 0] [] (digitsParam "b" 1 404)
    (requestOf ["x"]).store (requestOf ["x", "abc"]).store (requestOf ["x", "abc"]).store
    { Key := "", ValueRaw := "abc" }
    rfl rfl (Passes.skip rfl (Passes.nil _)) rfl (Passes.skip rfl (Passes.nil _)) rfl rfl rfl

/-- C10: parameters with `CanEval() = false` take no part in the run of the
filter.  On every request, the store lookups that the filter records are at
the `Index` of the evaluable parameters, in declaration order, as far as the
run went, and so are the `Eval` calls; hence for a non-evaluable `p` whose
`Index` is not that of an evaluable parameter, no lookup at `p.Index` and no
`Eval` for `p.Index` is recorded.  What the store holds elsewhere cannot
change the outcome: from two stores that hold the same raw string, or both
nothing, at the index of every evaluable parameter (a relation `R` that the
evaluators of these parameters respect), the filter gives the same return
value, the same status code and the same calls, so neither a missing entry
nor any raw value at the index of a non-evaluable parameter makes it reject
or set a status code.  The filter gives the result and the context of the
loop over the evaluable parameters alone, and taking one non-evaluable
parameter out of the template changes nothing. -/
theorem filter_ignores_non_evaluable (tmpl : Template) (ctx : Context)
    (hex : ∃ p ∈ tmpl.Params, p.CanEval = true) :
    ∃ filter, MakeFilter tmpl = some filter ∧
      (∃ cs, (filter ctx).2.calls = ctx.calls ++ cs ∧
        lookupsOf cs <+: evalIndexes tmpl.Params ∧
        evalsOf cs <+: evalIndexes tmpl.Params ∧
        ∀ p ∈ tmpl.Params, p.CanEval = false →
          (∀ q ∈ tmpl.Params, q.CanEval = true → q.Index ≠ p.Index) →
          Call.GetEntryAt p.Index ∉ cs ∧ ∀ raw : String, Call.Eval p.Index raw ∉ cs) ∧
      (∀ (R : Store → Store → Prop) (ctx' : Context),
        (∀ s s', R s s' → ∀ q ∈ tmpl.Params, q.CanEval = true →
          (s.GetEntryAt q.Index).map Entry.String =
            (s'.GetEntryAt q.Index).map Entry.String) →
        (∀ s s', R s s' → ∀ q ∈ tmpl.Params, q.CanEval = true → ∀ raw : String,
          (q.Eval raw s).1 = (q.Eval raw s').1 ∧ R (q.Eval raw s).2 (q.Eval raw s').2) →
        R ctx.store ctx'.store → ctx.statusCode = ctx'.statusCode →
        ctx.calls = ctx'.calls →
        (filter ctx).1 = (filter ctx').1 ∧
        (filter ctx).2.statusCode = (filter ctx').2.statusCode ∧
        (filter ctx).2.calls = (filter ctx').2.calls) ∧
      filter ctx = filterLoop (tmpl.Params.filter (fun p => p.CanEval)) ctx ∧
      ∀ (pre post : List TemplateParam) (p : TemplateParam),
        tmpl.Params = pre ++ p :: post → p.CanEval = false →
        filter ctx = filterLoop (pre ++ post) ctx := by
  refine ⟨_, MakeFilter_of_exists tmpl hex, ?_, ?_, ?_, ?_⟩
  · obtain ⟨cs, hcs, hlook, hev⟩ := filterLoop_calls_by_index tmpl.Params ctx
    refine ⟨cs, hcs, hlook, hev, ?_⟩
    intro p _ _ hne
    constructor
    · intro hmem
      obtain ⟨q, hq, hc, hi⟩ :=
        mem_evalIndexes _ _ (hlook.subset (mem_lookupsOf cs _ hmem))
      exact hne q hq hc hi
    · intro raw hmem
      obtain ⟨q, hq, hc, hi⟩ :=
        mem_evalIndexes _ _ (hev.subset (mem_evalsOf cs _ raw hmem))
      exact hne q hq hc hi
  · intro R ctx' hlook heval hR hcode hcalls
    obtain ⟨h1, h2, h3, _⟩ := filterLoop_related R tmpl.Params hlook heval ctx ctx' hR hcode hcalls
    exact ⟨h1, h2, h3⟩
  · show filterLoop tmpl.Params ctx = _
    rw [filterLoop_filter_CanEval]
  · intro pre post p hparams hp
    show filterLoop tmpl.Params ctx = _
    rw [← filterLoop_filter_CanEval tmpl.Params, ← filterLoop_filter_CanEval (pre ++ post),
      hparams, List.filter_append, List.filter_append, List.filter_cons_of_neg (by simp [hp])]

/-- C10, at `/{a}/{b:uint64 else 404}/{c}` with the captures `x`, `42`: the
capture of the untyped `a` (index 0) is not numeric and the entry of the
untyped `c` (index 2) is missing; the only calls are the lookup and the `Eval`
of `b` at index 1, the filter accepts with status 200, and it gives the same
on the captures `7`, `42`, `zzz`. -/
theorem filter_ignores_non_evaluable_witness :
    (∃ p ∈ tmplABC.Params, p.CanEval = true) ∧
    ∃ filter, MakeFilter tmplABC = some filter ∧
      (requestOf ["x", "42"]).store.GetEntryAt (untypedParam "c" 2).Index = none ∧
      (∃ cs, (filter (requestOf ["x", "42"])).2.calls = (requestOf ["x", "42"]).calls ++ cs ∧
        (Call.GetEntryAt 0 ∉ cs ∧ ∀ raw : String, Call.Eval 0 raw ∉ cs) ∧
        (Call.GetEntryAt 2 ∉ cs ∧ ∀ raw : String, Call.Eval 2 raw ∉ cs)) ∧
      filter (requestOf ["x", "42"]) =
        (true, { store := (requestOf ["x", "42"]).store, statusCode := 200,
                 calls := [Call.GetEntryAt 1, Call.Eval 1 "42"] }) ∧
      (filter (requestOf ["x", "42"])).1 = (filter (requestOf ["7", "42", "zzz"])).1 ∧
      (filter (requestOf ["x", "42"])).2.statusCode =
        (filter (requestOf ["7", "42", "zzz"])).2.statusCode ∧
      (filter (requestOf ["x", "42"])).2.calls =
        (filter (requestOf ["7", "42", "zzz"])).2.calls := by
  have hex : ∃ p ∈ tmplABC.Params, p.CanEval = true :=
    ⟨digitsParam "b" 1 404, by simp [tmplABC], rfl⟩
  have hq : ∀ q ∈ tmplABC.Params, q.CanEval = true → q = digitsParam "b" 1 404 := by
    intro q hmem hc
    simp only [tmplABC, List.mem_cons, List.mem_singleton, List.not_mem_nil, or_false] at hmem
    rcases hmem with h | h | h
    · rw [h] at hc
      exact absurd hc (by decide)
    · exact h
    · rw [h] at hc
      exact absurd hc (by decide)
  obtain ⟨filter, hf, ⟨cs, hcs, _, _, hno⟩, hrel, _, _⟩ :=
    filter_ignores_non_evaluable tmplABC (requestOf ["x", "42"]) hex
  have hnoA := hno (untypedParam "a" 0) (by simp [tmplABC]) rfl
    (by
      intro q hmem hc
      rw [hq q hmem hc]
      decide)
  have hnoC := hno (untypedParam "c" 2) (by simp [tmplABC]) rfl
    (by
      intro q hmem hc
      rw [hq q hmem hc]
      decide)
  have hsame := hrel (fun s s' => s.GetEntryAt 1 = s'.GetEntryAt 1)
    (requestOf ["7", "42", "zzz"])
    (by
      intro s s' h q hmem hc
      rw [hq q hmem hc]
      show (s.GetEntryAt 1).map Entry.String = (s'.GetEntryAt 1).map Entry.String
      rw [h])
    (by
      intro s s' h q hmem hc raw
      rw [hq q hmem hc]
      exact ⟨rfl, h⟩)
    rfl rfl rfl
  have hfun := (MakeFilter_eq_some tmplABC filter hf).2
  refine ⟨hex, filter, hf, rfl, ⟨cs, hcs, hnoA, hnoC⟩, ?_, hsame⟩
  rw [hfun]
  rfl

/-- C11: the filter joins descriptors to captures by `Index`, not by name.
For two templates whose parameters differ at most in their `Name`, both
`MakeFilter` results are nil or both are filters, and on every request context
the two filters give the same return value and leave the same context (store,
status code, recorded lookups and calls).  And whenever the filter reaches an
evaluable parameter `p` (the ones before it accepted, leaving `ctx1`) and the
store has the entry `e` at `p.Index`, the calls recorded next are the lookup at
`p.Index` and the `Eval` of `p` on the string of `e`, and the run continues as
the outcome of `p.Eval` on that string decides; the position of `p` in
`Params` plays no part. -/
theorem filter_joins_by_index (tmpl tmpl2 : Template)
    (hname : List.Forall₂ SameButName tmpl.Params tmpl2.Params) :
    (∀ c : Context,
      (MakeFilter tmpl2).map (fun f => f c) = (MakeFilter tmpl).map (fun f => f c)) ∧
    ((MakeFilter tmpl2).isSome = (MakeFilter tmpl).isSome) ∧
    ∀ (ctx ctx1 : Context) (pre post : List TemplateParam) (p : TemplateParam) (e : Entry),
      tmpl.Params = pre ++ p :: post → filterLoop pre ctx = (true, ctx1) →
      p.CanEval = true → ctx1.store.GetEntryAt p.Index = some e →
      ∃ filter, MakeFilter tmpl = some filter ∧
        (∃ cs, (filter ctx).2.calls =
          ctx1.calls ++ [Call.GetEntryAt p.Index, Call.Eval p.Index e.String] ++ cs) ∧
        filter ctx =
          if (p.Eval e.String ctx1.store).1 = true then
            filterLoop post
              { store := (p.Eval e.String ctx1.store).2, statusCode := ctx1.statusCode,
                calls := ctx1.calls ++ [Call.GetEntryAt p.Index, Call.Eval p.Index e.String] }
          else
            (false, { store := (p.Eval e.String ctx1.store).2, statusCode := p.ErrCode,
                      calls := ctx1.calls ++ [Call.GetEntryAt p.Index,
                        Call.Eval p.Index e.String, Call.StatusCode p.ErrCode] }) := by
  have hcan : CanMakeHandler tmpl2 = CanMakeHandler tmpl := by
    rw [CanMakeHandler_eq_loop, CanMakeHandler_eq_loop,
      canMakeHandlerLoop_SameButName _ _ hname]
  refine ⟨?_, ?_, ?_⟩
  · intro c
    unfold MakeFilter
    rw [hcan]
    cases CanMakeHandler tmpl with
    | false => rfl
    | true =>
      simp only [Bool.not_true, Bool.false_eq_true, if_false, Option.map_some']
      rw [filterLoop_SameButName _ _ hname c]
  · unfold MakeFilter
    rw [hcan]
    cases CanMakeHandler tmpl <;> rfl
  · intro ctx ctx1 pre post p e hparams hpre hp he
    refine ⟨_, MakeFilter_of_mem tmpl pre post p hparams hp, ?_, ?_⟩
    · show ∃ cs, (filterLoop tmpl.Params ctx).2.calls = _
      rw [hparams, filterLoop_append, hpre]
      simp only [if_true]
      rcases hf : p.Eval e.String ctx1.store with ⟨b, s1⟩
      cases b with
      | false =>
        rw [filterLoop_cons_fail p post ctx1 e s1 hp he hf]
        exact ⟨[Call.StatusCode p.ErrCode], by simp⟩
      | true =>
        rw [filterLoop_cons_pass p post ctx1 e s1 hp he hf]
        obtain ⟨cs, hcs, _⟩ := filterLoop_calls post
          { store := s1, statusCode := ctx1.statusCode,
            calls := ctx1.calls ++ [Call.GetEntryAt p.Index, Call.Eval p.Index e.String] }
        exact ⟨cs, hcs⟩
    · show filterLoop tmpl.Params ctx = _
      rw [hparams, filterLoop_append, hpre]
      simp only [if_true]
      rcases hf : p.Eval e.String ctx1.store with ⟨b, s1⟩
      cases b with
      | false =>
        rw [filterLoop_cons_fail p post ctx1 e s1 hp he hf]
        simp
      | true =>
        rw [filterLoop_cons_pass p post ctx1 e s1 hp he hf]
        simp

/-- C11, at `/{x:uint64 else 400}/{y:uint64 else 404}` whose descriptors are
listed with `y` (index 1) before `x` (index 0), and at the same template with
the names `id` and `name`. -/
theorem filter_joins_by_index_witness :
    List.Forall₂ SameButName tmplYX.Params tmplYXRenamed.Params ∧
    (∀ c : Context,
      (MakeFilter tmplYXRenamed).map (fun f => f c) =
        (MakeFilter tmplYX).map (fun f => f c)) ∧
    ∃ filter, MakeFilter tmplYX = some filter ∧
      (∃ cs, (filter (requestOf ["abc", "7"])).2.calls =
        [Call.GetEntryAt 1, Call.Eval 1 "7"] ++ [Call.GetEntryAt 0, Call.Eval 0 "abc"] ++ cs) ∧
      filter (requestOf ["abc", "7"]) =
        (false, { store := (requestOf ["abc", "7"]).store, statusCode := 400,
                  calls := [Call.GetEntryAt 1, Call.Eval 1 "7", Call.GetEntryAt 0,
                    Call.Eval 0 "abc", Call.StatusCode 400] }) :=
  have hname : List.Forall₂ SameButName tmplYX.Params tmplYXRenamed.Params :=
    List.Forall₂.cons ⟨rfl, rfl, rfl, rfl⟩
      (List.Forall₂.cons ⟨rfl, rfl, rfl, rfl⟩ List.Forall₂.nil)
  ⟨hname, (filter_joins_by_index tmplYX tmplYXRenamed hname).1,
    (filter_joins_by_index tmplYX tmplYXRenamed hname).2.2 (requestOf ["abc", "7"])
      { store := (requestOf ["abc", "7"]).store, statusCode := 200,
        calls := [Call.GetEntryAt 1, Call.Eval 1 "7"] }
      [digitsParam "y" 1 404] [] (digitsParam "x" 0 400) { Key := "", ValueRaw := "abc" }
      rfl rfl rfl rfl⟩

/-- C13: `Delims` cannot be used before `Load`.  The engine that `Jet` returns
has a nil `Set`, so `Delims` on it, here with the delimiters `<<` and `>>`,
panics on the nil set instead of returning the engine; this is so for every
directory, extension and pair of delimiters.  After `Load` the call returns
the engine with the delimiters set. -/
theorem Delims_before_Load_panics :
    (Jet "./views" ".jet").isSome = true ∧
    (Jet "./views" ".jet").map (fun s => s.Set.isNone) = some true ∧
    (Jet "./views" ".jet").bind (fun s => s.Delims "<<" ">>") = none ∧
    (∀ directory extension left right : String,
      (Jet directory extension).bind (fun s => s.Delims left right) = none) ∧
    (∀ (s : JetEngine) (left right : String),
      (s.Load.Delims left right).map
          (fun t => t.Set.map (fun st => (st.leftDelim, st.rightDelim))) =
        some (some (left, right))) := by
  refine ⟨rfl, rfl, rfl, ?_, ?_⟩
  · intro directory extension left right
    unfold Jet
    cases extOKLoop jetExtensions extension <;> rfl
  · intro s left right
    rfl

/-- C14: `Load` does not clear the pending map `vars`.  On the engine of
`Jet("./views", ".jet")`, after `AddVar("title", ...)` and
`AddFunc("urlpath", ...)` the two entries are pending in `vars`; `Load`
registers both as globals of the new set, and `vars` still holds both after
`Load`; for every engine `Load` leaves `vars` as it was.  `AddVar` after `Load`
adds the global to the set and leaves `vars` as it was. -/
theorem Load_keeps_pending_vars :
    ((Jet "./views" ".jet").bind (fun s =>
        (s.AddVar "title" (JetValue.data "Home")).AddFunc "urlpath"
          (JetValue.generalFunc "app.URL"))).map (fun s => s.vars) =
      some (some [("title", JetValue.data "Home"),
        ("urlpath", JetValue.generalFuncWrapper "urlpath" "app.URL")]) ∧
    ((Jet "./views" ".jet").bind (fun s =>
        (s.AddVar "title" (JetValue.data "Home")).AddFunc "urlpath"
          (JetValue.generalFunc "app.URL"))).map
        (fun s => s.Load.Set.map (fun st => st.globals)) =
      some (some [("title", JetValue.data "Home"),
        ("urlpath", JetValue.generalFuncWrapper "urlpath" "app.URL")]) ∧
    ((Jet "./views" ".jet").bind (fun s =>
        (s.AddVar "title" (JetValue.data "Home")).AddFunc "urlpath"
          (JetValue.generalFunc "app.URL"))).map (fun s => s.Load.vars) =
      some (some [("title", JetValue.data "Home"),
        ("urlpath", JetValue.generalFuncWrapper "urlpath" "app.URL")]) ∧
    (∀ s : JetEngine, s.Load.vars = s.vars) ∧
    (∀ (s : JetEngine) (key : String) (value : JetValue),
      (s.Load.AddVar key value).vars = s.Load.vars ∧
      (s.Load.AddVar key value).Set = s.Load.Set.map (fun st => st.AddGlobal key value)) := by
  refine ⟨rfl, rfl, rfl, fun _ => rfl, fun _ _ _ => ⟨rfl, rfl⟩⟩

/-- C15: `embeddedFile.Read` reads sequentially and does not consume the
contents.  Take a file as `Open` makes it (nothing read) and any sequence of
`Read` calls, one for each of the buffers `bufs`.  No call panics; afterwards
the contents are the same, `0 ≤ readen ≤ len(contents)`, and the bytes the
calls returned, put together, are the first `readen` bytes of the contents.
A further call with a buffer `p` copies, when `readen < len(contents)`, the
`n = min(len(p), len(contents) - readen)` bytes `contents[readen : readen+n]`
to the start of `p`, returns `(n, nil)` and advances `readen` by `n`; when
`readen = len(contents)` it returns `(0, io.EOF)` and changes nothing. -/
theorem embeddedFile_Read_sequential (contents : List UInt8) (bufs : List (List UInt8))
    (p : List UInt8) :
    ∃ (f : embeddedFile) (out : List UInt8),
      readCalls { contents := contents, readen := 0 } bufs = some (f, out) ∧
      f.contents = contents ∧ 0 ≤ f.readen ∧ f.readen ≤ (contents.length : Int) ∧
      out = contents.take f.readen.toNat ∧
      (f.readen < (contents.length : Int) →
        f.Read p =
          some { n := ((min p.length (contents.length - f.readen.toNat) : Nat) : Int),
                 err := none,
                 p := (contents.drop f.readen.toNat).take
                     (min p.length (contents.length - f.readen.toNat)) ++
                   p.drop (min p.length (contents.length - f.readen.toNat)),
                 f := { contents := contents,
                        readen := f.readen +
                          ((min p.length (contents.length - f.readen.toNat) : Nat) : Int) } }) ∧
      (f.readen = (contents.length : Int) →
        f.Read p = some { n := 0, err := some ReadError.EOF, p := p, f := f }) := by
  obtain ⟨m, out, _, hm, hrun, hout⟩ := readCalls_from contents bufs 0 (Nat.zero_le _)
  refine ⟨{ contents := contents, readen := (m : Int) }, out, hrun, rfl, by simp, by simpa using hm,
    by simpa using hout, ?_, ?_⟩
  · intro hlt
    have hlt' : m < contents.length := by simpa using hlt
    rw [embeddedFile.Read_of_lt contents p m hlt']
    simp
  · intro heq
    exact embeddedFile.Read_of_ge _ p (by simp at heq; simp [heq])

/-- C16: `Binary` does not register the assets of an engine whose extension
is `.jet.html`.  `Jet("./views", ".jet.html")` is a valid engine and the
directory is normalized to `views`; the asset `views/index.jet.html` starts
with `views` and ends with `.jet.html`, but `path.Ext` gives `.html` for it,
which is none of `jetExtensions`.  With this asset alone `Binary` keeps no
name and panics; next to `views/layout.jet` only the latter is in the set of
the embedded loader. -/
theorem Binary_skips_jet_html_assets :
    (Jet "./views" ".jet.html").isSome = true ∧
    binaryVdir "./views" = some "views" ∧
    HasPrefix "views/index.jet.html" "views" = true ∧
    HasSuffix "views/index.jet.html" ".jet.html" = true ∧
    pathExt "views/index.jet.html" = ".html" ∧
    ((Jet "./views" ".jet.html").bind
        (fun s => s.Binary sampleAsset ["views/index.jet.html"])).isNone = true ∧
    ((Jet "./views" ".jet.html").bind
        (fun s => s.Binary sampleAsset ["views/index.jet.html", "views/layout.jet"])).map
        (fun s => s.embeddedNames) = some (some ["views/layout.jet"]) := by
  refine ⟨rfl, rfl, rfl, rfl, rfl, rfl, rfl⟩

end Iris
